import Mathlib

/-!
Verification of the quark grading engine (Go sources under `src/`):
the output validator (`src/runner/validator.go`), the grading
orchestrator (`src/runner/runner.go`), the problem-archive assembler
(`src/grader/v1compat/input.go`) and the frontend broadcast handler
(`src/cmd/omegaup-grader/frontend_handler.go`).

Go `float64` values are embedded as the exact rationals they denote;
every `float64` arithmetic operation is followed by `floatRound`, the
round-to-nearest-even rounding of IEEE-754 binary64.  Go `*big.Rat`
values are embedded as `ℚ` directly.
-/

/- `Rat` arithmetic in Batteries is `@[irreducible]`; unseal it so that
closed-form evaluations (`decide`) of the definitions below go through. -/
unseal Rat.mul Rat.add Rat.sub Rat.inv Rat.ofScientific

namespace Quark

/-! ## IEEE-754 binary64 model -/

/-- Multiply a rational by an integer power of two: `a * 2 ^ e` with `e : ℤ`. -/
def mulPow2 (a : ℚ) (e : ℤ) : ℚ :=
  if 0 ≤ e then a * ((2 ^ e.toNat : ℕ) : ℚ) else a / ((2 ^ (-e).toNat : ℕ) : ℚ)

/-- Number of binary digits of a natural number (`0` for `0`), computed with
a structurally recursive fuel argument so the kernel can evaluate it. -/
def natBitsAux : ℕ → ℕ → ℕ
  | 0, _ => 0
  | fuel + 1, n => if n = 0 then 0 else natBitsAux fuel (n / 2) + 1

/-- Number of binary digits of a natural number: `natBits n = ⌊log₂ n⌋ + 1`
for `n > 0`, and `natBits 0 = 0`. -/
def natBits (n : ℕ) : ℕ := natBitsAux n n

/-- Round a rational to the nearest integer, with ties going to the even
integer (the rounding used by IEEE-754 round-to-nearest-even). -/
def roundHalfEven (q : ℚ) : ℤ :=
  let f := ⌊q⌋
  let r := q - (f : ℚ)
  if r < 1 / 2 then f
  else if 1 / 2 < r then f + 1
  else if f % 2 = 0 then f else f + 1

/-- Rounding of an exact rational to the nearest IEEE-754 binary64
(`float64`) value, ties to even, expressed as the exact rational the
resulting double denotes.  The scaling exponent `e` is chosen so that
`|q| * 2 ^ e ∈ [2^52, 2^53)`, i.e. rounding keeps 53 significant bits.
The exponent is left unbounded, so the model is exact on the normal
finite range of binary64, which covers every quantity appearing in the
claims below (weights, scores, tolerances). -/
def floatRound (q : ℚ) : ℚ :=
  if q = 0 then 0
  else
    let a := |q|
    let e0 : ℤ := 52 - ((natBits a.num.natAbs : ℤ) - (natBits a.den : ℤ))
    let e : ℤ := if mulPow2 a e0 < ((2 ^ 52 : ℕ) : ℚ) then e0 + 1 else e0
    let m := roundHalfEven (mulPow2 a e)
    (if q < 0 then -1 else 1) * mulPow2 (m : ℚ) (-e)

/-- Go `float64` addition: exact sum, then binary64 rounding. -/
def floatAdd (a b : ℚ) : ℚ := floatRound (a + b)

/-- Go `float64` subtraction: exact difference, then binary64 rounding. -/
def floatSub (a b : ℚ) : ℚ := floatRound (a - b)

/-- Go `float64` multiplication: exact product, then binary64 rounding. -/
def floatMul (a b : ℚ) : ℚ := floatRound (a * b)

/-- Go `float64` division: exact quotient, then binary64 rounding.
Both operands are assumed nonzero finite (the only way it is used here). -/
def floatDiv (a b : ℚ) : ℚ := floatRound (a / b)

/-- Go `math.Abs` on binary64 values: exact, no rounding occurs. -/
def floatAbs (q : ℚ) : ℚ := |q|

/-! ## Verdicts (`src/runner/runner.go`)

`worseVerdict` (runner.go 1325-1331) indexes `common.VerdictList` at
`min(idxA, idxB)` where each index comes from `sliceIndex` and is `-1`
when the verdict is not in the list. -/

/-- Modelled from the spec: `common.VerdictList` (package `common` is not
under `src/`).  The spec's total order is best-to-worst
`AC < PA < WA < OK < TLE < MLE < OLE < RTE < CE < JE`, and `worseVerdict`
selects the *smaller* index, so the list is ordered worst-first. -/
def VerdictList : List String :=
  ["JE", "CE", "RTE", "OLE", "MLE", "TLE", "OK", "WA", "PA", "AC"]

/-- The spec's verdict order, best to worst (spec §3). -/
def verdictOrder : List String :=
  ["AC", "PA", "WA", "OK", "TLE", "MLE", "OLE", "RTE", "CE", "JE"]

/-- Position of a verdict in the spec's best-to-worst order; a verdict
with a larger rank is worse. -/
def verdictRank (v : String) : ℕ := verdictOrder.findIdx (· == v)

/-- Embedding of `sliceIndex` from runner.go 1333-1340: scan `i = 0, 1, …, limit-1`
and return the first `i` satisfying the predicate, or `-1` if none does.
The scan is phrased with a structurally recursive fuel argument (the
number of remaining iterations) so the kernel can evaluate it. -/
def sliceIndexAux (predicate : ℕ → Bool) : ℕ → ℕ → ℤ
  | 0, _ => -1
  | fuel + 1, i => if predicate i then (i : ℤ) else sliceIndexAux predicate fuel (i + 1)

/-- Embedding of `sliceIndex` from runner.go 1333-1340. -/
def sliceIndex (limit : ℕ) (predicate : ℕ → Bool) : ℤ :=
  sliceIndexAux predicate limit 0

/-- Embedding of `min` from runner.go 1342-1347. -/
def intMin (a b : ℤ) : ℤ := if a < b then a else b

/-- Embedding of `worseVerdict` from runner.go 1325-1331.  Go evaluates
`common.VerdictList[min(idxA, idxB)]`, a runtime panic when the index is
out of range (in particular when it is `-1` because an argument is not in
the list); the panic is modelled as `none`. -/
def worseVerdict (a b : String) : Option String :=
  let idxA := sliceIndex VerdictList.length fun i => VerdictList.getD i "" == a
  let idxB := sliceIndex VerdictList.length fun i => VerdictList.getD i "" == b
  let i := intMin idxA idxB
  if 0 ≤ i then VerdictList[i.toNat]? else none

/-! ## Per-case execution metadata and interactive reconciliation
(`src/runner/runner.go` 963-1038) -/

/-- Embedding of `RunMetadata` as used by runner.go (the struct declaration lives in
the runner package's sandbox file, which is not under `src/`; the fields
modelled are exactly those runner.go reads: `Verdict`, `Time`,
`WallTime`, `Memory`, `ExitStatus`, `Signal`). -/
structure RunMetadata where
  verdict : String
  time : ℚ
  wallTime : ℚ
  memory : ℤ
  exitStatus : ℤ
  signal : Option String
deriving DecidableEq

/-- Embedding of `binaryType` from runner.go 233-239. -/
inductive BinaryType
  | problemsetter
  | contestant
  | validator
deriving DecidableEq

/-- One message of the per-case results channel (`intermediateRunResult`,
runner.go 255-260; `generatedFiles` is irrelevant to the claims). -/
structure IntermediateRunResult where
  name : String
  runMeta : RunMetadata
  binaryType : BinaryType

/-- The per-case collection state built by the loop at runner.go 963-999:
`parentMetadata`, the accumulated `finalVerdict` (`worseVerdict` over the
contestant verdicts, seeded with `"OK"`; `none` models a `worseVerdict`
panic), and the accumulated time/wall-time/memory.  The first-failing
contestant's `chosenMetadata` exit status and signal are overwritten at
runner.go 1002-1005 except for `ExitStatus`/`Signal`, which no claim
reads, so they are not tracked. -/
structure CollectState where
  parentMetadata : Option RunMetadata
  finalVerdict : Option String
  totalTime : ℚ
  totalWallTime : ℚ
  totalMemory : ℤ

/-- One step of the collection loop (runner.go 972-999).  A problemsetter
result is recorded as `parentMetadata`; a contestant result is merged
with `worseVerdict` and its resource usage accumulated (note runner.go
997 adds `MaxBytes(totalMemory, memory)` to the running total, which is
what is reproduced here). -/
def collectStep (s : CollectState) (r : IntermediateRunResult) : CollectState :=
  if r.binaryType = BinaryType.problemsetter then
    { s with parentMetadata := some r.runMeta }
  else
    { s with
      finalVerdict := s.finalVerdict.bind fun v => worseVerdict v r.runMeta.verdict
      totalTime := s.totalTime + r.runMeta.time
      totalWallTime := max s.totalWallTime r.runMeta.wallTime
      totalMemory := s.totalMemory + max s.totalMemory r.runMeta.memory }

/-- The collection loop over all channel messages (runner.go 963-999);
the message order is the (nondeterministic) channel arrival order. -/
def collectResults (results : List IntermediateRunResult) : CollectState :=
  results.foldl collectStep
    { parentMetadata := none
      finalVerdict := some "OK"
      totalTime := 0
      totalWallTime := 0
      totalMemory := 0 }

/-- The parent-verdict mapping of runner.go 1013-1035, applied when the
parent (problemsetter) did not finish `"OK"` while every contestant did. -/
def reconcileParentVerdict (parent : RunMetadata) : String :=
  if parent.verdict = "OLE" then "OLE"
  else if parent.verdict = "TLE" then "TLE"
  else if parent.exitStatus = 239 then "RTE"
  else if parent.exitStatus = 240 then "RTE"
  else if parent.exitStatus = 241 then "RTE"
  else if parent.exitStatus = 242 then "RTE"
  else if parent.signal = some "SIGPIPE" then "RTE"
  else "JE"

/-- The verdict of one case after the collection loop and the
parent-metadata fixup (runner.go 1002, 1007-1036): the `worseVerdict`
aggregate of the contestants, replaced through `reconcileParentVerdict`
when the parent failed but every contestant succeeded.  `none` models a
`worseVerdict` panic. -/
def caseVerdict (results : List IntermediateRunResult) : Option String :=
  let s := collectResults results
  s.finalVerdict.map fun finalVerdict =>
    match s.parentMetadata with
    | some parent =>
      if parent.verdict ≠ "OK" ∧ finalVerdict = "OK" then reconcileParentVerdict parent
      else finalVerdict
    | none => finalVerdict

/-! ## Final run aggregation (`src/runner/runner.go` 1226-1235) -/

/-- The final verdict/score fixup and contest score of runner.go
1226-1235: `PA` with zero score becomes `WA`; `OK` becomes `AC` with
score 1; `contest_score = max_score * score` is computed from the final
score.  Returns `(verdict, score, contestScore)`. -/
def finalizeRunResult (verdict : String) (score maxScore : ℚ) : String × ℚ × ℚ :=
  let p : String × ℚ :=
    if verdict = "PA" ∧ score = 0 then ("WA", score)
    else if verdict = "OK" then ("AC", 1)
    else (verdict, score)
  (p.1, p.2, maxScore * p.2)

/-! ## Case weights in `Grade` (`src/runner/runner.go` 469-482), exact
`big.Rat` arithmetic -/

/-- Embedding of `common.CaseSettings` as consumed by runner.go (`Name`, `Weight`;
`Weight` is a `*big.Rat`, embedded exactly). -/
structure CaseSettings where
  name : String
  weight : ℚ

/-- Embedding of `common.GroupSettings` as consumed by runner.go (`Name`, `Cases`). -/
structure GroupSettings where
  name : String
  cases : List CaseSettings

/-- The total raw weight accumulated at runner.go 472-477: the sum of
every case weight over all groups. -/
def rawTotalWeight (groups : List GroupSettings) : ℚ :=
  (groups.map fun g => (g.cases.map fun c => c.weight).sum).sum

/-- Embedding of `totalWeightFactor` after runner.go 478-482: `1` when the raw total
is `≤ 0`, otherwise the exact reciprocal of the raw total. -/
def totalWeightFactor (groups : List GroupSettings) : ℚ :=
  if rawTotalWeight groups ≤ 0 then 1 else 1 / rawTotalWeight groups

/-- The effective normalised weight of a case with raw weight `w`, as
used at runner.go 1056, 1186 and 1194: `Mul(caseData.Weight,
totalWeightFactor)`. -/
def caseWeightFactor (groups : List GroupSettings) (w : ℚ) : ℚ :=
  w * totalWeightFactor groups

/-- The substitution described by the spec (§3, Case Weighting
Invariant), stated from the spec's words for comparison with the code:
if `W ≤ 0` then `W ← 1` and the case's weight `← 1` before normalising,
so the normalised weight of every case is `1 / 1 = 1`; otherwise the
normalised weight is `w / W`. -/
def specNormalizedWeight (groups : List GroupSettings) (w : ℚ) : ℚ :=
  if rawTotalWeight groups ≤ 0 then 1 else w / rawTotalWeight groups

/-! ## Case weights in `CreateArchiveFromGit`
(`src/grader/v1compat/input.go` 444-475), `float64` arithmetic -/

/-- The total raw weight accumulated at input.go 447-450: a `float64`
running sum over `rawCaseWeights` (a Go map; the association list order
models the map's iteration order). -/
def totalWeightV1 (raw : List (String × ℚ)) : ℚ :=
  raw.foldl (fun acc p => floatAdd acc p.2) 0

/-- The normalised weight `weight / totalWeight` computed in `float64`
at input.go 457 and 463. -/
def normalizedWeightV1 (raw : List (String × ℚ)) (w : ℚ) : ℚ :=
  floatDiv w (totalWeightV1 raw)

/-! ## Tokenisation (`src/runner/validator.go` 16-83) -/

/-- Go `unicode.IsSpace`: the Unicode `White_Space` code points
U+0009-U+000D, U+0020, U+0085, U+00A0, U+1680, U+2000-U+200A, U+2028,
U+2029, U+202F, U+205F and U+3000. -/
def isUnicodeSpace (c : Char) : Bool :=
  (0x9 ≤ c.toNat && c.toNat ≤ 0xD) || c.toNat = 0x20 || c.toNat = 0x85 ||
  c.toNat = 0xA0 || c.toNat = 0x1680 || (0x2000 ≤ c.toNat && c.toNat ≤ 0x200A) ||
  c.toNat = 0x2028 || c.toNat = 0x2029 || c.toNat = 0x202F || c.toNat = 0x205F ||
  c.toNat = 0x3000

/-- Embedding of `isSpace` from validator.go 23-25: a Unicode space, or one of the
Java-only whitespace characters U+001C-U+001F. -/
def isSpace (c : Char) : Bool :=
  isUnicodeSpace c || (0x1C ≤ c.toNat && c.toNat ≤ 0x1F)

/-- The complete token stream produced by repeatedly running a
`bufio.Scanner` split function of the `scanTokens`/`scanNumericTokens`
shape (validator.go 29-53 and 59-83): skip characters outside the kept
alphabet, then emit the next maximal run of kept characters, until the
stream is exhausted.  `acc` holds the (reversed) run being scanned. -/
def splitRunsAux (keep : Char → Bool) : List Char → List Char → List String
  | [], acc => if acc.isEmpty then [] else [String.mk acc.reverse]
  | c :: rest, acc =>
    if keep c then splitRunsAux keep rest (c :: acc)
    else if acc.isEmpty then splitRunsAux keep rest []
    else String.mk acc.reverse :: splitRunsAux keep rest []

/-- The token stream of a character stream under a kept alphabet. -/
def splitRuns (keep : Char → Bool) (s : List Char) : List String :=
  splitRunsAux keep s []

/-- The stream of whitespace-delimited tokens: what `scanTokens`
(validator.go 29-53) yields over the whole input. -/
def scanTokensAll (s : List Char) : List String :=
  splitRuns (fun c => !isSpace c) s

/-- Embedding of `isNumericRune` from validator.go 55-57. -/
def isNumericRune (c : Char) : Bool :=
  c = '.' || c = '-' || ('0' ≤ c && c ≤ '9')

/-- The stream of numeric tokens: what `scanNumericTokens`
(validator.go 59-83) yields over the whole input. -/
def scanNumericTokensAll (s : List Char) : List String :=
  splitRuns isNumericRune s

/-- The stream of `bufio.ScanWords` tokens (separators are exactly
`unicode.IsSpace`), used by `getStoredHash` in input.go 62-77. -/
def scanWordsAll (s : List Char) : List String :=
  splitRuns (fun c => !isUnicodeSpace c) s

/-! ## Go number parsing (`strconv`) -/

/-- ASCII decimal digit. -/
def isDigitChar (c : Char) : Bool := 48 ≤ c.toNat && c.toNat ≤ 57

/-- Value of a list of ASCII decimal digits. -/
def digitsVal (ds : List Char) : ℕ :=
  ds.foldl (fun a c => a * 10 + (c.toNat - 48)) 0

/-- Go `strconv.ParseFloat(s, 64)` on the decimal grammar
`[+-]? digits [. digits]? ([eE] [+-]? digits)?` (at least one mantissa
digit): `none` on a syntax error, otherwise the binary64 rounding of the
exact decimal value.  The `inf`/`nan`/hexadecimal/underscore spellings
accepted by Go, and its out-of-range error for values beyond the
binary64 range, cannot arise for the token streams this development
feeds into the parser and are not modelled. -/
def goParseFloat (s : String) : Option ℚ :=
  let p : ℚ × List Char :=
    match s.data with
    | '-' :: rest => (-1, rest)
    | '+' :: rest => (1, rest)
    | _ => (1, s.data)
  let sign := p.1
  let intPart := p.2.takeWhile isDigitChar
  let r1 := p.2.dropWhile isDigitChar
  let q : List Char × List Char :=
    match r1 with
    | '.' :: t => (t.takeWhile isDigitChar, t.dropWhile isDigitChar)
    | _ => ([], r1)
  let frac := q.1
  let r2 := q.2
  if intPart.isEmpty ∧ frac.isEmpty then none
  else
    let mant : ℚ := sign * ((digitsVal (intPart ++ frac) : ℤ) : ℚ) /
      ((10 ^ frac.length : ℕ) : ℚ)
    match r2 with
    | [] => some (floatRound mant)
    | e :: t =>
      if e = 'e' ∨ e = 'E' then
        let pe : Bool × List Char :=
          match t with
          | '-' :: tt => (true, tt)
          | '+' :: tt => (false, tt)
          | _ => (false, t)
        let eds := pe.2.takeWhile isDigitChar
        let r3 := pe.2.dropWhile isDigitChar
        if eds.isEmpty ∨ ¬r3.isEmpty then none
        else
          let scale : ℚ := ((10 ^ digitsVal eds : ℕ) : ℚ)
          some (floatRound (if pe.1 then mant / scale else mant * scale))
      else none

/-- Go `strconv.ParseInt(s, 10, 64)`: optional sign, at least one decimal
digit, nothing else, and the value must fit in a signed 64-bit integer. -/
def goParseInt64 (s : String) : Option ℤ :=
  let p : ℤ × List Char :=
    match s.data with
    | '-' :: rest => (-1, rest)
    | '+' :: rest => (1, rest)
    | _ => (1, s.data)
  if p.2.isEmpty ∨ ¬p.2.all isDigitChar then none
  else
    let v : ℤ := p.1 * (digitsVal p.2 : ℤ)
    if v < -(2 ^ 63) ∨ (2 ^ 63 : ℤ) - 1 < v then none else some v

/-! ## The output validator (`src/runner/validator.go` 85-153) -/

/-- Embedding of `common.ValidatorSettings` as consumed by validator.go and input.go:
`Name` and the optional `Tolerance` (a `*float64`, embedded as the exact
rational the double denotes).  The `Lang`/`Limits` fields play no role
in the claims. -/
structure ValidatorSettings where
  name : String
  tolerance : Option ℚ
deriving DecidableEq

/-- Embedding of `token` from validator.go 138-140: byte equality. -/
def token (a b : String) : Bool := a == b

/-- ASCII lower-casing of one character, the fragment of Unicode simple
case folding that the claims exercise. -/
def toLowerSimple (c : Char) : Char :=
  if 65 ≤ c.toNat ∧ c.toNat ≤ 90 then Char.ofNat (c.toNat + 32) else c

/-- ASCII lower-casing of a string. -/
def lowerString (s : String) : String := String.mk (s.data.map toLowerSimple)

/-- Embedding of `tokenCaseless` from validator.go 142-144 (`strings.EqualFold`),
modelled on the ASCII fragment of Unicode simple case folding. -/
def tokenCaseless (a b : String) : Bool := lowerString a == lowerString b

/-- Embedding of `tokenNumeric` from validator.go 146-153: parse both tokens as
`float64`; if both parse, pass iff `|a-b| ≤ |a| * tolerance` (each
`math` operation rounded as binary64); if exactly one parses, fail; if
neither parses, pass. -/
def tokenNumeric (a b : String) (tolerance : ℚ) : Bool :=
  match goParseFloat a, goParseFloat b with
  | some af, some bf => decide (floatAbs (floatSub af bf) ≤ floatMul (floatAbs af) tolerance)
  | some _, none => false
  | none, some _ => false
  | none, none => true

/-- The `switch settings.Name` comparison of one token pair
(validator.go 117-130).  `none` models the `default` branch, which makes
`CalculateScore` return an "Unknown validator" error.  A `nil`
`Tolerance` with name `token-numeric` would make Go dereference a nil
pointer; every flow that reaches this point has set the tolerance
(input.go 243-246), and the dereference is modelled as `getD 0`. -/
def matchTok (settings : ValidatorSettings) (e c : String) : Option Bool :=
  if settings.name = "token" then some (token e c)
  else if settings.name = "token-caseless" then some (tokenCaseless e c)
  else if settings.name = "token-numeric" then
    some (tokenNumeric e c (settings.tolerance.getD 0))
  else none

/-- The comparison loop of `CalculateScore` (validator.go 107-135) over
the two token streams.  Each turn scans one token from each stream; if
the expected stream is exhausted the loop stops, succeeding exactly when
the contestant stream is exhausted too; otherwise the pair is compared
(`Text()` of an exhausted scanner is the empty string, hence `headD ""`)
and the loop continues only while the comparison succeeds. -/
def scoreLoop (settings : ValidatorSettings) : List String → List String → ℚ × Option String
  | [], [] => (1, none)
  | [], _ :: _ => (0, none)
  | e :: erest, cs =>
    match matchTok settings e (cs.headD "") with
    | some true => scoreLoop settings erest cs.tail
    | some false => (0, none)
    | none => (0, some ("Unknown validator: " ++ settings.name))

/-- Embedding of `CalculateScore` from validator.go 85-136, over whole character
streams.  Returns the score together with the error value (`none` for
`nil`); Go returns both, and callers use the score even when the error
is set. -/
def CalculateScore (settings : ValidatorSettings)
    (contestantOutput expectedOutput : List Char) : ℚ × Option String :=
  let scanFunc := if settings.name = "token-numeric" then scanNumericTokensAll else scanTokensAll
  let contestantTokens := scanFunc contestantOutput
  if settings.name = "literal" ∨ settings.name = "custom" then
    match contestantTokens with
    | [] => (0, some "unexpected EOF")
    | t :: _ =>
      match goParseFloat t with
      | some value => (max 0 (min 1 value), none)
      | none => (max 0 (min 1 0), some "invalid syntax")
  else
    scoreLoop settings (scanFunc expectedOutput) contestantTokens

/-! ## Archive verification (`src/grader/v1compat/input.go` 35-94) -/

/-- The on-disk state that `graderBaseInput.Verify` consults: whether
`os.Stat` succeeds on the archive and its size; the hexadecimal SHA-1 of
the archive's bytes (what `common.Sha1sum` followed by `%0x` formatting
produces); the archive's actual uncompressed total, recorded here so
that theorems can relate it to what `Verify` checks; and the contents of
the `.sha1` and `.len` sidecar files (`none` when the file cannot be
opened). -/
structure StoredArchive where
  present : Bool
  size : ℤ
  sha1Hex : String
  uncompressedSize : ℤ
  sha1Sidecar : Option String
  lenSidecar : Option String

/-- Embedding of `getStoredHash` from input.go 62-77: the first `bufio.ScanWords`
token of the `.sha1` sidecar. -/
def getStoredHash (s : StoredArchive) : Except String String :=
  match s.sha1Sidecar with
  | none => .error "open failed"
  | some content =>
    match scanWordsAll content.data with
    | [] => .error "unexpected EOF"
    | t :: _ => .ok t

/-- The first `bufio.ScanLines` token of a file: the data up to the
first newline, with one trailing carriage return stripped; no token at
all when the file is empty. -/
def firstLine (content : String) : Option String :=
  if content = "" then none
  else
    let cs := content.data.takeWhile fun c => !(c == '\n')
    some (String.mk (if cs.getLast? = some '\r' then cs.dropLast else cs))

/-- Embedding of `getStoredLength` from input.go 79-94: the first line of the `.len`
sidecar parsed with `strconv.ParseInt(_, 10, 64)`. -/
def getStoredLength (s : StoredArchive) : Except String ℤ :=
  match s.lenSidecar with
  | none => .error "open failed"
  | some content =>
    match firstLine content with
    | none => .error "unexpected EOF"
    | some line =>
      match goParseInt64 line with
      | some v => .ok v
      | none => .error "invalid syntax"

/-- Embedding of `Verify` from input.go 35-60: stat the archive, hash its bytes,
compare against the first token of the `.sha1` sidecar, then read and
parse the `.len` sidecar.  On success Go records the stored hash and the
stored length on the input and commits; the pair returned here is that
recorded data. -/
def Verify (s : StoredArchive) : Except String (String × ℤ) :=
  if ¬s.present then .error "stat failed"
  else
    match getStoredHash s with
    | .error e => .error e
    | .ok storedHash =>
      if storedHash ≠ s.sha1Hex then .error "Hash verification failed"
      else
        match getStoredLength s with
        | .error e => .error e
        | .ok storedLength => .ok (storedHash, storedLength)

/-! ## Settings loading in `CreateArchiveFromGit`
(`src/grader/v1compat/input.go` 239-246) -/

/-- The Go constant `1e-6` as the binary64 value it denotes. -/
def tol1e6 : ℚ := floatRound (mkRat 1 1000000)

/-- The tolerance fixup of `CreateArchiveFromGit` (input.go 243-246):
whenever the loaded settings name the `token-numeric` validator, the
tolerance is pointed at a fresh `1e-6`. -/
def applyTokenNumericTolerance (v : ValidatorSettings) : ValidatorSettings :=
  if v.name = "token-numeric" then { v with tolerance := some tol1e6 } else v

/-! ## Broadcast of finished runs
(`src/cmd/omegaup-grader/frontend_handler.go` 151-156) -/

/-- The score pair published by `broadcastRun`: the run's rational
`Score` and `ContestScore` are first converted to `float64`
(`base.RationalToFloat`, i.e. binary64 rounding); when the problemset
does not use partial scoring and the converted score is not exactly `1`,
both published values are zeroed. -/
def broadcastScores (partialScore : Bool) (resultScore resultContestScore : ℚ) : ℚ × ℚ :=
  let score := floatRound resultScore
  let contestScore := floatRound resultContestScore
  if partialScore = false ∧ score ≠ 1 then (0, 0) else (score, contestScore)

/-! # Theorems -/

/-! ## Helper lemmas about `sliceIndex` -/

theorem sliceIndexAux_ge_neg_one (p : ℕ → Bool) :
    ∀ fuel i, -1 ≤ sliceIndexAux p fuel i := by
  intro fuel
  induction fuel with
  | zero => intro i; simp [sliceIndexAux]
  | succ n ih =>
    intro i
    simp only [sliceIndexAux]
    split
    · omega
    · exact ih (i + 1)

theorem sliceIndexAux_lt (p : ℕ → Bool) :
    ∀ fuel i, sliceIndexAux p fuel i < (i : ℤ) + fuel := by
  intro fuel
  induction fuel with
  | zero => intro i; simp [sliceIndexAux]; omega
  | succ n ih =>
    intro i
    simp only [sliceIndexAux]
    split
    · omega
    · have := ih (i + 1)
      push_cast at this ⊢
      omega

theorem sliceIndexAux_eq_neg_one_iff (p : ℕ → Bool) :
    ∀ fuel i, sliceIndexAux p fuel i = -1 ↔ ∀ j, i ≤ j → j < i + fuel → p j = false := by
  intro fuel
  induction fuel with
  | zero =>
    intro i
    constructor
    · intro _ j h1 h2; omega
    · intro _; rfl
  | succ n ih =>
    intro i
    simp only [sliceIndexAux]
    by_cases hp : p i
    · rw [if_pos hp]
      constructor
      · intro h; omega
      · intro h
        have := h i le_rfl (by omega)
        rw [hp] at this
        cases this
    · rw [if_neg hp, ih (i + 1)]
      constructor
      · intro h j h1 h2
        rcases Nat.eq_or_lt_of_le h1 with rfl | hlt
        · exact Bool.not_eq_true _ ▸ by simpa using hp
        · exact h j hlt (by omega)
      · intro h j h1 h2
        exact h j (by omega) (by omega)

/-- The `sliceIndex` probe used by `worseVerdict` for a verdict string. -/
theorem verdictIndex_neg_iff (a : String) :
    sliceIndex VerdictList.length (fun i => VerdictList.getD i "" == a) = -1 ↔
      a ∉ VerdictList := by
  rw [sliceIndex, sliceIndexAux_eq_neg_one_iff]
  constructor
  · intro h hmem
    obtain ⟨j, hj, hval⟩ := List.mem_iff_getElem.mp hmem
    have hfalse := h j (by omega) (by omega)
    have hgetD : VerdictList.getD j "" = VerdictList[j] := by
      simp [List.getD_eq_getElem?_getD, List.getElem?_eq_getElem hj]
    rw [hgetD, hval] at hfalse
    simp at hfalse
  · intro h j _ hj
    have hjlt : j < VerdictList.length := by omega
    have hgetD : VerdictList.getD j "" = VerdictList[j] := by
      simp [List.getD_eq_getElem?_getD, List.getElem?_eq_getElem hjlt]
    rw [hgetD]
    by_contra hcon
    rw [Bool.not_eq_false, beq_iff_eq] at hcon
    exact h (hcon ▸ List.getElem_mem hjlt)

/-! ## C7 and C9: the `worseVerdict` combinator -/

/-- C7: over the verdict domain, `worseVerdict` is commutative,
associative (composing with `bind` since the embedding returns
`Option`), idempotent, returns the worse argument along the spec's
best-to-worst order `AC < PA < WA < OK < TLE < MLE < OLE < RTE < CE <
JE` (i.e. the one of larger `verdictRank`), is monotone in that order,
and absorbs into `JE`. -/
theorem worseVerdict_order_spec :
    (∀ a ∈ VerdictList, ∀ b ∈ VerdictList, worseVerdict a b = worseVerdict b a) ∧
    (∀ a ∈ VerdictList, ∀ b ∈ VerdictList, ∀ c ∈ VerdictList,
      ((worseVerdict a b).bind fun x => worseVerdict x c) =
        ((worseVerdict b c).bind fun y => worseVerdict a y)) ∧
    (∀ a ∈ VerdictList, worseVerdict a a = some a) ∧
    (∀ a ∈ VerdictList, ∀ b ∈ VerdictList,
      worseVerdict a b = some (if verdictRank a ≤ verdictRank b then b else a)) ∧
    (∀ a ∈ VerdictList, ∀ b ∈ VerdictList, ∀ c ∈ VerdictList,
      verdictRank a ≤ verdictRank b →
        verdictRank ((worseVerdict a c).getD "JE") ≤
          verdictRank ((worseVerdict b c).getD "JE")) ∧
    (∀ a ∈ VerdictList, worseVerdict a "JE" = some "JE") := by
  decide

/-- Witness for C7 at concrete verdicts: merging `AC` with `JE` gives
`JE`, and `worseVerdict "OK" "TLE"` returns the worse verdict `TLE`. -/
theorem worseVerdict_order_spec_witness :
    worseVerdict "AC" "JE" = some "JE" ∧ worseVerdict "OK" "TLE" = some "TLE" := by
  refine ⟨worseVerdict_order_spec.2.2.2.2.2 "AC" (by decide), ?_⟩
  have h := worseVerdict_order_spec.2.2.2.1 "OK" (by decide) "TLE" (by decide)
  rw [h]
  decide

/-- C9: `worseVerdict` hits the out-of-range index (a Go panic, the
embedding's `none`) exactly when one of its arguments is not a member of
`common.VerdictList`; under the precondition that both arguments are
members, the error branch is unreachable. -/
theorem worseVerdict_none_iff (a b : String) :
    worseVerdict a b = none ↔ a ∉ VerdictList ∨ b ∉ VerdictList := by
  unfold worseVerdict intMin
  set idxA := sliceIndex VerdictList.length fun i => VerdictList.getD i "" == a with hA
  set idxB := sliceIndex VerdictList.length fun i => VerdictList.getD i "" == b with hB
  have hAge : -1 ≤ idxA := sliceIndexAux_ge_neg_one _ _ 0
  have hBge : -1 ≤ idxB := sliceIndexAux_ge_neg_one _ _ 0
  have hAlt : idxA < (0 : ℤ) + VerdictList.length := sliceIndexAux_lt _ _ 0
  have hBlt : idxB < (0 : ℤ) + VerdictList.length := sliceIndexAux_lt _ _ 0
  by_cases ha : a ∈ VerdictList <;> by_cases hb : b ∈ VerdictList
  · have hA0 : 0 ≤ idxA := by
      have := (verdictIndex_neg_iff a).not.mpr (by simpa using ha)
      rw [← hA] at this
      omega
    have hB0 : 0 ≤ idxB := by
      have := (verdictIndex_neg_iff b).not.mpr (by simpa using hb)
      rw [← hB] at this
      omega
    have hmin0 : 0 ≤ if idxA < idxB then idxA else idxB := by split <;> omega
    have hminlt : (if idxA < idxB then idxA else idxB).toNat < VerdictList.length := by
      split <;> omega
    rw [if_pos hmin0]
    simp [ha, hb, List.getElem?_eq_getElem hminlt]
  · have hBneg : idxB = -1 := by rw [hB]; exact (verdictIndex_neg_iff b).mpr hb
    have : ¬(0 ≤ if idxA < idxB then idxA else idxB) := by split <;> omega
    rw [if_neg this]
    simp [hb]
  · have hAneg : idxA = -1 := by rw [hA]; exact (verdictIndex_neg_iff a).mpr ha
    have : ¬(0 ≤ if idxA < idxB then idxA else idxB) := by split <;> omega
    rw [if_neg this]
    simp [ha]
  · have hAneg : idxA = -1 := by rw [hA]; exact (verdictIndex_neg_iff a).mpr ha
    have : ¬(0 ≤ if idxA < idxB then idxA else idxB) := by split <;> omega
    rw [if_neg this]
    simp [ha]

/-! ## C6: interactive parent-verdict reconciliation -/

theorem collect_finalVerdict_ok (results : List IntermediateRunResult) :
    ∀ s : CollectState,
      (∀ r ∈ results, r.binaryType ≠ BinaryType.problemsetter → r.runMeta.verdict = "OK") →
      s.finalVerdict = some "OK" →
      (results.foldl collectStep s).finalVerdict = some "OK" := by
  induction results with
  | nil => intro s _ hs; simpa using hs
  | cons r rest ih =>
    intro s hall hs
    rw [List.foldl_cons]
    refine ih _ (fun x hx hxt => hall x (List.mem_cons_of_mem _ hx) hxt) ?_
    by_cases hr : r.binaryType = BinaryType.problemsetter
    · simp [collectStep, hr, hs]
    · have hv := hall r (List.mem_cons_self _ _) hr
      simp [collectStep, hr, hs, hv]
      decide

/-- C6: in an interactive case where every contestant binary finished
`OK` but the problemsetter (parent) did not, the case verdict is decided
from the parent metadata: `OLE` for parent `OLE`, `TLE` for parent
`TLE`, `RTE` for parent exit status 239, 240, 241 or 242, `RTE` for
parent signal `SIGPIPE`, and `JE` otherwise. -/
theorem caseVerdict_parent_reconciliation
    (results : List IntermediateRunResult) (parent : RunMetadata)
    (hcontestants : ∀ r ∈ results, r.binaryType ≠ BinaryType.problemsetter →
      r.runMeta.verdict = "OK")
    (hparent : (collectResults results).parentMetadata = some parent)
    (hfail : parent.verdict ≠ "OK") :
    caseVerdict results = some (
      if parent.verdict = "OLE" then "OLE"
      else if parent.verdict = "TLE" then "TLE"
      else if parent.exitStatus = 239 ∨ parent.exitStatus = 240 ∨
          parent.exitStatus = 241 ∨ parent.exitStatus = 242 then "RTE"
      else if parent.signal = some "SIGPIPE" then "RTE"
      else "JE") := by
  have hok : (collectResults results).finalVerdict = some "OK" :=
    collect_finalVerdict_ok results _ hcontestants rfl
  unfold caseVerdict
  dsimp only
  rw [hok, hparent]
  rw [Option.map_some']
  dsimp only
  rw [if_pos (show parent.verdict ≠ "OK" ∧ "OK" = "OK" from ⟨hfail, rfl⟩)]
  unfold reconcileParentVerdict
  split_ifs <;> tauto

/-- Witness for C6: one `OK` contestant and a parent that died with exit
status 240 (invalid cookie) produce case verdict `RTE`. -/
theorem caseVerdict_parent_reconciliation_witness :
    caseVerdict
      [⟨"pou", ⟨"OK", 1, 1, 256, 0, none⟩, BinaryType.contestant⟩,
       ⟨"Main", ⟨"RTE", 1, 1, 256, 240, none⟩, BinaryType.problemsetter⟩] = some "RTE" := by
  have h := caseVerdict_parent_reconciliation
    [⟨"pou", ⟨"OK", 1, 1, 256, 0, none⟩, BinaryType.contestant⟩,
     ⟨"Main", ⟨"RTE", 1, 1, 256, 240, none⟩, BinaryType.problemsetter⟩]
    ⟨"RTE", 1, 1, 256, 240, none⟩
    (by decide) (by decide) (by decide)
  rw [h]
  decide

/-! ## C8: final verdict and score fixup -/

/-- C8: after all groups are aggregated, a `PA` verdict with zero score
becomes `WA`; an `OK` verdict becomes `AC` with score set to 1; and the
final contest score always equals `max_score` times the final score. -/
theorem finalizeRunResult_spec (verdict : String) (score maxScore : ℚ) :
    (verdict = "PA" → score = 0 → (finalizeRunResult verdict score maxScore).1 = "WA") ∧
    (verdict = "OK" → (finalizeRunResult verdict score maxScore).1 = "AC" ∧
      (finalizeRunResult verdict score maxScore).2.1 = 1) ∧
    (finalizeRunResult verdict score maxScore).2.2 =
      maxScore * (finalizeRunResult verdict score maxScore).2.1 := by
  refine ⟨?_, ?_, rfl⟩
  · intro h1 h2
    simp [finalizeRunResult, h1, h2]
  · intro h
    simp [finalizeRunResult, h]

/-- Witness for C8 at concrete inputs: `PA` with zero score over
max score 100 finalises to `WA`, and an `OK` run finalises to `AC` with
score 1. -/
theorem finalizeRunResult_spec_witness :
    (finalizeRunResult "PA" 0 100).1 = "WA" ∧
      (finalizeRunResult "OK" 0 100).1 = "AC" ∧ (finalizeRunResult "OK" 0 100).2.1 = 1 :=
  ⟨(finalizeRunResult_spec "PA" 0 100).1 rfl rfl,
   (finalizeRunResult_spec "OK" 0 100).2.1 rfl⟩

/-! ## C1: normalised weights -/

/-- C1 amended, the `Grade` half: in `Grade` the weights are exact
`big.Rat` rationals, and when the raw total `W` is positive the per-case
factors `weight * totalWeightFactor` sum to exactly 1 over all groups. -/
theorem grade_normalized_weights_sum_one (groups : List GroupSettings)
    (h : 0 < rawTotalWeight groups) :
    (groups.map fun g => (g.cases.map fun c => caseWeightFactor groups c.weight).sum).sum
      = 1 := by
  have hfac : totalWeightFactor groups = 1 / rawTotalWeight groups := by
    rw [totalWeightFactor, if_neg (not_le.mpr h)]
  have hgroup : ∀ g : GroupSettings,
      (g.cases.map fun c => caseWeightFactor groups c.weight).sum =
        (g.cases.map fun c => c.weight).sum * totalWeightFactor groups := by
    intro g
    simpa [caseWeightFactor] using
      List.sum_map_mul_right g.cases (fun c => c.weight) (totalWeightFactor groups)
  rw [List.map_congr_left fun g _ => hgroup g,
    List.sum_map_mul_right groups (fun g => (g.cases.map fun c => c.weight).sum)
      (totalWeightFactor groups)]
  show rawTotalWeight groups * totalWeightFactor groups = 1
  rw [hfac, mul_one_div, div_self (ne_of_gt h)]

/-- Witness for C1 at a concrete problem: three cases of weights 1, 2
and 3 in two groups have positive total weight, and the `Grade`-side
normalised weights sum to exactly 1. -/
theorem grade_normalized_weights_sum_one_witness :
    (0 : ℚ) < rawTotalWeight
        [⟨"g1", [⟨"g1.a", 1⟩, ⟨"g1.b", 2⟩]⟩, ⟨"g2", [⟨"g2.a", 3⟩]⟩] ∧
      (([⟨"g1", [⟨"g1.a", 1⟩, ⟨"g1.b", 2⟩]⟩, ⟨"g2", [⟨"g2.a", 3⟩]⟩] :
          List GroupSettings).map fun g => (g.cases.map fun c =>
            caseWeightFactor
              [⟨"g1", [⟨"g1.a", 1⟩, ⟨"g1.b", 2⟩]⟩, ⟨"g2", [⟨"g2.a", 3⟩]⟩]
              c.weight).sum).sum = 1 :=
  ⟨by decide, grade_normalized_weights_sum_one _ (by decide)⟩

/-- C1 counterexample, the `CreateArchiveFromGit` half: the assembler
normalises in `float64` (not rationals), and already for three cases of
raw weight 1 the stored normalised weights are three copies of the
binary64 value nearest to 1/3, whose exact sum is `(2^54 - 1) / 2^54`,
not 1. -/
theorem v1_weights_float_counterexample :
    (let raw : List (String × ℚ) := [("a", 1), ("b", 1), ("c", 1)]
     (raw.map fun p => normalizedWeightV1 raw p.2).sum =
       mkRat 18014398509481983 18014398509481984) ∧
    mkRat 18014398509481983 18014398509481984 ≠ 1 := by
  decide

/-! ## C5: degenerate total weight -/

/-- C5 amended: when the raw total weight is `≤ 0`, `Grade` substitutes
only the normalisation factor with 1 and leaves every individual case
weight unchanged, so each case's effective normalised weight equals its
raw weight (no division by a non-positive total takes place). -/
theorem grade_degenerate_weight_no_substitution (groups : List GroupSettings)
    (h : rawTotalWeight groups ≤ 0) :
    totalWeightFactor groups = 1 ∧ ∀ w : ℚ, caseWeightFactor groups w = w := by
  have h1 : totalWeightFactor groups = 1 := by rw [totalWeightFactor, if_pos h]
  exact ⟨h1, fun w => by rw [caseWeightFactor, h1, mul_one]⟩

/-- Witness for C5 at a concrete problem whose only case has weight 0:
the total is `≤ 0`, the factor becomes 1 and the effective weight stays
0. -/
theorem grade_degenerate_weight_witness :
    rawTotalWeight [⟨"g", [⟨"a", 0⟩]⟩] ≤ 0 ∧
      totalWeightFactor [⟨"g", [⟨"a", 0⟩]⟩] = 1 ∧
      caseWeightFactor [⟨"g", [⟨"a", 0⟩]⟩] 0 = 0 :=
  ⟨by decide, (grade_degenerate_weight_no_substitution _ (by decide)).1,
    (grade_degenerate_weight_no_substitution _ (by decide)).2 0⟩

/-- C5 counterexample: for a problem whose only case has raw weight 0
(total `W = 0 ≤ 0`), the spec's substitution (`W ← 1`, case weight
`← 1`) would make the normalised weight 1, but the code's effective
normalised weight is the unchanged raw weight 0. -/
theorem weight_substitution_counterexample :
    (let groups : List GroupSettings := [⟨"g", [⟨"a", 0⟩]⟩]
     rawTotalWeight groups ≤ 0 ∧ caseWeightFactor groups 0 = 0 ∧
       specNormalizedWeight groups 0 = 1) ∧
    (0 : ℚ) ≠ 1 := by
  decide

/-! ## C4: the token-numeric tolerance default -/

/-- C4 counterexample: a tolerance already present in the loaded
settings (here 1) is not preserved; `CreateArchiveFromGit` overwrites it
with `1e-6`. -/
theorem tolerance_overwrite_counterexample :
    (applyTokenNumericTolerance ⟨"token-numeric", some 1⟩).tolerance ≠ some 1 ∧
      (applyTokenNumericTolerance ⟨"token-numeric", some 1⟩).tolerance = some tol1e6 := by
  decide

/-- C4 amended: whenever the loaded settings name the `token-numeric`
validator, `CreateArchiveFromGit` sets the tolerance to `1e-6`
unconditionally, whether or not one was present; settings for any other
validator name are left unchanged. -/
theorem applyTokenNumericTolerance_spec (v : ValidatorSettings) :
    (v.name = "token-numeric" →
      applyTokenNumericTolerance v = { v with tolerance := some tol1e6 }) ∧
    (v.name ≠ "token-numeric" → applyTokenNumericTolerance v = v) := by
  constructor <;> intro h <;> simp [applyTokenNumericTolerance, h]

/-- Witness for C4: settings with no tolerance and the `token-numeric`
validator get tolerance `1e-6`. -/
theorem applyTokenNumericTolerance_spec_witness :
    applyTokenNumericTolerance ⟨"token-numeric", none⟩ = ⟨"token-numeric", some tol1e6⟩ :=
  (applyTokenNumericTolerance_spec ⟨"token-numeric", none⟩).1 rfl

/-! ## C2: archive verification -/

/-- C2 counterexample: an archive whose hash matches its `.sha1` sidecar
passes `Verify` even though the `.len` sidecar records 5 while the
archive's actual uncompressed total is 7; the stored length is loaded
but never compared. -/
theorem verify_ignores_length_counterexample :
    Verify ⟨true, 100, "abc", 7, some "abc *x.tar.gz\n", some "5\n"⟩ =
        Except.ok ("abc", 5) ∧
      (5 : ℤ) ≠ 7 := by
  exact ⟨rfl, by decide⟩

/-- C2 amended: `Verify` succeeds iff the archive can be stat'ed, the
SHA-1 of its bytes equals the first token of the `.sha1` sidecar, and
the first line of the `.len` sidecar parses as an `int64`; the recorded
uncompressed size is loaded but never compared against the archive's
actual uncompressed total, so `Verify`'s outcome is independent of that
total. -/
theorem verify_ok_iff (s : StoredArchive) :
    ((Verify s).toBool = true ↔
      s.present = true ∧ getStoredHash s = .ok s.sha1Hex ∧
        (getStoredLength s).toBool = true) ∧
    (∀ n : ℤ, Verify { s with uncompressedSize := n } = Verify s) := by
  constructor
  · by_cases hp : s.present = true
    · rw [Verify, if_neg (by simp [hp])]
      cases hh : getStoredHash s with
      | error e => simp [hh, Except.toBool]
      | ok storedHash =>
        dsimp only
        by_cases heq : storedHash = s.sha1Hex
        · subst heq
          rw [if_neg (not_not_intro rfl)]
          cases hl : getStoredLength s with
          | error e => simp [hp, hh, hl, Except.toBool]
          | ok len => simp [hp, hh, hl, Except.toBool]
        · rw [if_pos heq]
          simp [hh, heq, Except.toBool]
    · rw [Verify, if_pos (by simpa using hp)]
      simp [hp, Except.toBool]
  · intro n
    rfl

/-! ## C10: broadcast score zeroing -/

/-- C10 counterexample: the zeroing test compares the `float64`
conversion of the score with 1, so a rational score strictly below 1
that rounds to the double 1.0 — here `(2^54 - 1) / 2^54` — is broadcast
as 1 rather than being zeroed, although `PartialScore` is false and the
score is not exactly 1. -/
theorem broadcast_zeroing_counterexample :
    broadcastScores false (mkRat 18014398509481983 18014398509481984)
        (mkRat 18014398509481983 18014398509481984) = (1, 1) ∧
      mkRat 18014398509481983 18014398509481984 ≠ 1 := by
  decide

/-- C10 amended: for a finished run, when `PartialScore` is false and
the `float64` conversion of the run's score is not exactly 1, the
broadcast publishes score 0 and contest score 0; when `PartialScore` is
true, or the converted score equals 1, the converted score and contest
score are published as they are. -/
theorem broadcastScores_spec (partialScore : Bool) (s cs : ℚ) :
    (partialScore = false → floatRound s ≠ 1 →
      broadcastScores partialScore s cs = (0, 0)) ∧
    (partialScore = true →
      broadcastScores partialScore s cs = (floatRound s, floatRound cs)) ∧
    (floatRound s = 1 →
      broadcastScores partialScore s cs = (floatRound s, floatRound cs)) := by
  refine ⟨fun h1 h2 => ?_, fun h => ?_, fun h => ?_⟩
  · simp [broadcastScores, h1, h2]
  · simp [broadcastScores, h]
  · simp [broadcastScores, h]

/-- Witness for C10: with partial scoring off, a run with score 1/2 is
broadcast as score 0 and contest score 0. -/
theorem broadcastScores_spec_witness :
    broadcastScores false (mkRat 1 2) (mkRat 1 2) = (0, 0) :=
  (broadcastScores_spec false (mkRat 1 2) (mkRat 1 2)).1 rfl (by decide)

/-! ## C3: the token comparison policies -/

theorem stringMk_reverse_ne_empty {acc : List Char} (h : acc.isEmpty = false) :
    String.mk acc.reverse ≠ "" := by
  intro hcon
  have hrev : acc.reverse = [] := by simpa using congrArg String.data hcon
  rw [List.reverse_eq_nil_iff] at hrev
  simp [hrev] at h

/-- Every token produced by a scanner split function is nonempty. -/
theorem splitRunsAux_ne_empty (keep : Char → Bool) :
    ∀ (l acc : List Char) (t : String), t ∈ splitRunsAux keep l acc → t ≠ "" := by
  intro l
  induction l with
  | nil =>
    intro acc t ht
    by_cases hacc : acc.isEmpty
    · simp [splitRunsAux, hacc] at ht
    · rw [Bool.not_eq_true] at hacc
      simp only [splitRunsAux, hacc, Bool.false_eq_true, if_false, List.mem_singleton] at ht
      subst ht
      exact stringMk_reverse_ne_empty hacc
  | cons c rest ih =>
    intro acc t ht
    simp only [splitRunsAux] at ht
    by_cases hk : keep c
    · rw [if_pos hk] at ht
      exact ih _ t ht
    · rw [if_neg hk] at ht
      by_cases hacc : acc.isEmpty
      · rw [if_pos hacc] at ht
        exact ih _ t ht
      · rw [Bool.not_eq_true] at hacc
        rw [if_neg (by simp [hacc])] at ht
        rcases List.mem_cons.mp ht with rfl | hmem
        · exact stringMk_reverse_ne_empty hacc
        · exact ih _ t hmem

theorem splitRuns_ne_empty (keep : Char → Bool) (s : List Char) :
    ∀ t ∈ splitRuns keep s, t ≠ "" :=
  fun t ht => splitRunsAux_ne_empty keep s [] t ht

theorem lowerString_ne_empty {e : String} (h : e ≠ "") : lowerString e ≠ "" := by
  intro hcon
  apply h
  have hmap : e.data = [] := by
    simpa [lowerString] using congrArg String.data hcon
  exact congrArg String.mk hmap

theorem matchTok_token (tolOpt : Option ℚ) (e c : String) :
    matchTok ⟨"token", tolOpt⟩ e c = some (token e c) := rfl

theorem matchTok_caseless (tolOpt : Option ℚ) (e c : String) :
    matchTok ⟨"token-caseless", tolOpt⟩ e c = some (tokenCaseless e c) := rfl

theorem matchTok_numeric (tol : ℚ) (e c : String) :
    matchTok ⟨"token-numeric", some tol⟩ e c = some (tokenNumeric e c tol) := rfl

/-- The comparison loop under the `token` policy scores 1 exactly when
the two token streams are equal as lists (pairwise byte-equal and of
the same length). -/
theorem scoreLoop_token (tolOpt : Option ℚ) :
    ∀ es cs : List String, (∀ e ∈ es, e ≠ "") →
      scoreLoop ⟨"token", tolOpt⟩ es cs = (if es = cs then 1 else 0, none) := by
  intro es
  induction es with
  | nil =>
    intro cs _
    cases cs with
    | nil => simp [scoreLoop]
    | cons c crest => simp [scoreLoop]
  | cons e erest ih =>
    intro cs hne
    have he : e ≠ "" := hne e (List.mem_cons_self _ _)
    have hrest : ∀ x ∈ erest, x ≠ "" := fun x hx => hne x (List.mem_cons_of_mem _ hx)
    cases cs with
    | nil =>
      have hf : token e "" = false := by simp [token, he]
      simp [scoreLoop, matchTok_token, hf]
    | cons c crest =>
      by_cases hec : e = c
      · subst hec
        have ht : token e e = true := by simp [token]
        simp only [scoreLoop, matchTok_token, List.headD_cons, ht, List.tail_cons,
          ih crest hrest]
        simp [List.cons.injEq]
      · have hf : token e c = false := by simp [token, hec]
        simp [scoreLoop, matchTok_token, hf, hec]

/-- The comparison loop under the `token-caseless` policy scores 1
exactly when the two token streams are equal after lower-casing
(pairwise case-insensitively equal and of the same length). -/
theorem scoreLoop_caseless (tolOpt : Option ℚ) :
    ∀ es cs : List String, (∀ e ∈ es, e ≠ "") →
      scoreLoop ⟨"token-caseless", tolOpt⟩ es cs =
        (if es.map lowerString = cs.map lowerString then 1 else 0, none) := by
  intro es
  induction es with
  | nil =>
    intro cs _
    cases cs with
    | nil => simp [scoreLoop]
    | cons c crest => simp [scoreLoop]
  | cons e erest ih =>
    intro cs hne
    have he : e ≠ "" := hne e (List.mem_cons_self _ _)
    have hrest : ∀ x ∈ erest, x ≠ "" := fun x hx => hne x (List.mem_cons_of_mem _ hx)
    cases cs with
    | nil =>
      have hf : tokenCaseless e "" = false := by
        have h0 : lowerString "" = "" := rfl
        simp [tokenCaseless, h0, lowerString_ne_empty he]
      simp [scoreLoop, matchTok_caseless, hf]
    | cons c crest =>
      by_cases hec : lowerString e = lowerString c
      · have ht : tokenCaseless e c = true := by simp [tokenCaseless, hec]
        simp only [scoreLoop, matchTok_caseless, List.headD_cons, ht, List.tail_cons,
          ih crest hrest]
        simp [List.cons.injEq, hec]
      · have hf : tokenCaseless e c = false := by simp [tokenCaseless, hec]
        simp [scoreLoop, matchTok_caseless, hf, hec]

theorem forall_lt_succ_head {n : ℕ} {P : ℕ → Prop} :
    (∀ i, i < n + 1 → P i) ↔ P 0 ∧ ∀ i, i < n → P (i + 1) := by
  constructor
  · intro h
    exact ⟨h 0 (Nat.succ_pos _), fun i hi => h (i + 1) (by omega)⟩
  · rintro ⟨h0, h⟩ i hi
    cases i with
    | zero => exact h0
    | succ j => exact h j (by omega)

/-- The comparison loop under the `token-numeric` policy scores 1
exactly when the contestant stream is no longer than the expected one
and every expected token matches its contestant counterpart, a missing
counterpart being the empty string (which `tokenNumeric` accepts exactly
when the expected token fails to parse). -/
theorem scoreLoop_numeric (tol : ℚ) :
    ∀ es cs : List String,
      scoreLoop ⟨"token-numeric", some tol⟩ es cs =
        (if cs.length ≤ es.length ∧
            (∀ i, i < es.length →
              tokenNumeric (es.getD i "") (cs.getD i "") tol = true)
          then 1 else 0, none) := by
  intro es
  induction es with
  | nil =>
    intro cs
    cases cs with
    | nil => simp [scoreLoop]
    | cons c crest => simp [scoreLoop]
  | cons e erest ih =>
    intro cs
    have hhead : cs.headD "" = cs.getD 0 "" := by cases cs <;> rfl
    by_cases hm : tokenNumeric e (cs.getD 0 "") tol = true
    · have heq : matchTok ⟨"token-numeric", some tol⟩ e (cs.headD "") = some true := by
        rw [matchTok_numeric, hhead, hm]
      simp only [scoreLoop, heq, ih cs.tail]
      refine Prod.ext ?_ rfl
      refine if_congr ?_ rfl rfl
      cases cs with
      | nil =>
        rw [List.getD_nil] at hm
        simp only [List.tail_nil, List.length_nil, List.length_cons, Nat.zero_le,
          true_and, forall_lt_succ_head, List.getD_cons_zero, List.getD_cons_succ,
          List.getD_nil]
        simp [hm]
      | cons c crest =>
        rw [List.getD_cons_zero] at hm
        simp only [List.tail_cons, List.length_cons, forall_lt_succ_head,
          List.getD_cons_zero, List.getD_cons_succ, Nat.add_le_add_iff_right]
        simp [hm]
    · rw [Bool.not_eq_true] at hm
      have heq : matchTok ⟨"token-numeric", some tol⟩ e (cs.headD "") = some false := by
        rw [matchTok_numeric, hhead, hm]
      simp only [scoreLoop, heq]
      rw [if_neg]
      rintro ⟨-, hall⟩
      have h0 := hall 0 (Nat.succ_pos _)
      rw [List.getD_cons_zero] at h0
      rw [hm] at h0
      cases h0

/-- C3 amended: for the `token` and `token-caseless` policies
`CalculateScore` returns 1 iff every pair of corresponding tokens
matches and both streams reach end-of-stream at the same step, and
returns 0 whenever one stream ends while the other still yields a
token.  For `token-numeric` the same holds except when the *contestant*
stream ends early: each leftover expected token is compared against the
empty string, which `tokenNumeric` accepts exactly when that token fails
to parse as a number, so the score is 1 iff the contestant stream is no
longer than the expected one and every expected token matches its
(possibly missing) counterpart. -/
theorem calculateScore_token_policies (tolOpt : Option ℚ) (tol : ℚ)
    (contestant expected : List Char) :
    (CalculateScore ⟨"token", tolOpt⟩ contestant expected =
      (if scanTokensAll expected = scanTokensAll contestant then 1 else 0, none)) ∧
    (CalculateScore ⟨"token-caseless", tolOpt⟩ contestant expected =
      (if (scanTokensAll expected).map lowerString =
          (scanTokensAll contestant).map lowerString then 1 else 0, none)) ∧
    (CalculateScore ⟨"token-numeric", some tol⟩ contestant expected =
      (if (scanNumericTokensAll contestant).length ≤
            (scanNumericTokensAll expected).length ∧
          (∀ i, i < (scanNumericTokensAll expected).length →
            tokenNumeric ((scanNumericTokensAll expected).getD i "")
              ((scanNumericTokensAll contestant).getD i "") tol = true)
        then 1 else 0, none)) :=
  ⟨scoreLoop_token tolOpt (scanTokensAll expected) (scanTokensAll contestant)
      (splitRuns_ne_empty _ expected),
   scoreLoop_caseless tolOpt (scanTokensAll expected) (scanTokensAll contestant)
      (splitRuns_ne_empty _ expected),
   scoreLoop_numeric tol (scanNumericTokensAll expected) (scanNumericTokensAll contestant)⟩

/-- C3 counterexample: under `token-numeric`, with expected output `"."`
(a single numeric token that fails to parse) and empty contestant
output, the contestant stream has ended while the expected stream still
yields a token, yet `CalculateScore` returns score 1, not 0. -/
theorem numeric_eof_mismatch_counterexample :
    scanNumericTokensAll ".".data = ["."] ∧
      scanNumericTokensAll ([] : List Char) = [] ∧
      CalculateScore ⟨"token-numeric", some tol1e6⟩ [] ".".data = (1, none) := by
  decide

end Quark
